import Mathlib

/-!
Verification of the lifecycle/aggregation computation layer of the
dev-productivity-dashboard repository.

The TypeScript source is shallowly embedded as follows:

* JavaScript numbers that take part in arithmetic (story points, hours,
  velocities) become rationals; epoch-millisecond timestamps obtained from
  successful date parsing become integers.
* Nullable or optional values (`string | null | undefined`) become `Option`.
  A field that a JS truthiness test can reject both for `null`/`undefined`
  and for the empty string is modelled as `Option String` together with the
  `truthy` predicate below.
* Date parsing (`new Date(s).getTime()` guarded by `Number.isFinite`) is
  modelled by an abstract parse function `String → Option Int`, `none`
  covering the missing and the unparseable (NaN) cases alike.
* Remote fetches performed once per issue key are modelled by an abstract
  function `String → Option α`; `none` covers both a non-ok HTTP response
  and a thrown exception, i.e. every path on which the source skips the key.
* Records keyed by strings become association lists written in loop order,
  looked up with `alookup`.
-/

namespace DevDash

/-- JS truthiness of a nullable string: `null`, `undefined` and `""` are falsy. -/
def truthy : Option String → Bool
  | none => false
  | some s => !(s = "")

/-- Lookup in an association list, first match wins (all writers below bind a
given key at most once per distinct value, matching JS object assignment). -/
def alookup {α : Type} (l : List (String × α)) (k : String) : Option α :=
  (l.find? (fun p => p.1 = k)).map (fun p => p.2)

/-- Characters removed by `String.prototype.trim`. -/
def trimChars (l : List Char) : List Char :=
  ((l.dropWhile Char.isWhitespace).reverse.dropWhile Char.isWhitespace).reverse

/-- Embedding of the status-name normalisation `(s ?? "").trim().toLowerCase()`
from `getIssuePhaseTimes` in `src/lib/jira.ts`. -/
def normName (s : Option String) : String :=
  String.mk ((trimChars (s.getD "").data).map Char.toLower)

/-! ## Phase-Time Extractor (`getIssuePhaseTimes`, `src/lib/jira.ts`) -/

/-- One entry of a changelog history (`items` element): the changed field and
the value transitioned to. -/
structure ChangeItem where
  field : String
  toString : Option String
  deriving Repr, DecidableEq

/-- One changelog history record: its timestamp and its items. -/
structure History where
  created : Option String
  items : List ChangeItem
  deriving Repr, DecidableEq

/-- The payload `getIssuePhaseTimes` reads for one issue: `fields.created` and
the changelog histories, oldest first. -/
structure IssueChangelog where
  created : Option String
  histories : List History
  deriving Repr, DecidableEq

/-- The four named status groups handed to the extractor. -/
structure Stages where
  todo : List String
  inProgress : List String
  review : List String
  complete : List String
  deriving Repr, DecidableEq

/-- Result record of the extractor for one issue. -/
structure PhaseTimes where
  todo : Option String
  inProgress : Option String
  review : Option String
  complete : Option String
  deriving Repr, DecidableEq

/-- Embedding of the assignment pattern `if (!cur && cond) cur = when` of the
extractor loop: the field is overwritten only while it is still falsy. -/
def setIf (cur : Option String) (cond : Bool) (when : Option String) : Option String :=
  if !(truthy cur) && cond then when else cur

/-- Membership of a normalised status name in a normalised group,
embedding `set.has(norm(it.toString))` with the sets built by `map norm`. -/
def inGroup (group : List String) (s : String) : Bool :=
  (group.map (fun g => normName (some g))).contains s

/-- Body of the inner loop of `getIssuePhaseTimes` for a single changelog item,
given the enclosing history timestamp `when`. -/
def phaseStep (stages : Stages) (when : Option String) (st : PhaseTimes)
    (it : ChangeItem) : PhaseTimes :=
  if it.field = "status" && truthy it.toString then
    let toName := normName it.toString
    { inProgress := setIf st.inProgress (inGroup stages.inProgress toName) when
      review := setIf st.review (inGroup stages.review toName) when
      complete := setIf st.complete (inGroup stages.complete toName) when
      todo := setIf st.todo (inGroup stages.todo toName) when }
  else st

/-- Per-issue computation of `getIssuePhaseTimes`: `todoFirst` is initialised
to `fields.created` and the histories are scanned oldest first. -/
def extractPhases (stages : Stages) (data : IssueChangelog) : PhaseTimes :=
  data.histories.foldl
    (fun st h => h.items.foldl (fun st it => phaseStep stages h.created st it) st)
    { todo := data.created, inProgress := none, review := none, complete := none }

/-- Batch loop of `getIssuePhaseTimes`: one sequential fetch per issue key, a
failed fetch (non-ok response or exception) contributing nothing. -/
def getIssuePhaseTimes (stages : Stages) (fetch : String → Option IssueChangelog) :
    List String → List (String × PhaseTimes)
  | [] => []
  | key :: rest =>
    (match fetch key with
     | none => []
     | some data => [(key, extractPhases stages data)]) ++
      getIssuePhaseTimes stages fetch rest

/-- All (history timestamp, item) pairs of a changelog in scan order. -/
def phasePairs (data : IssueChangelog) : List (Option String × ChangeItem) :=
  data.histories.flatMap (fun h => h.items.map (fun it => (h.created, it)))

/-- Item test used by the claims: a status-change entry whose (nonempty)
target status name belongs, case-insensitively, to the group. -/
def hitsGroup (group : List String) (it : ChangeItem) : Bool :=
  it.field = "status" && truthy it.toString && inGroup group (normName it.toString)

/-- Modelled from the claim wording, for comparison with `extractPhases`: the
timestamp of the first changelog entry whose target status name belongs to the
group. -/
def specFirstEntryInto (group : List String) (data : IssueChangelog) : Option String :=
  ((phasePairs data).find? (fun p => hitsGroup group p.2)).bind (fun p => p.1)

/-- Evolution of a single result field of the extractor along the flattened
item stream. -/
def fieldFold (group : List String) (cur : Option String)
    (pairs : List (Option String × ChangeItem)) : Option String :=
  pairs.foldl (fun c p => setIf c (hitsGroup group p.2) p.1) cur

theorem foldl_hist_eq_pairs (stages : Stages) (hs : List History) (st : PhaseTimes) :
    hs.foldl (fun st h => h.items.foldl (fun st it => phaseStep stages h.created st it) st) st
      = (hs.flatMap (fun h => h.items.map (fun it => (h.created, it)))).foldl
          (fun st p => phaseStep stages p.1 st p.2) st := by
  induction hs generalizing st with
  | nil => rfl
  | cons h rest ih =>
    simp only [List.flatMap_cons, List.foldl_append, List.foldl_map, List.foldl_cons]
    rw [← ih]

theorem extractPhases_eq_pairs (stages : Stages) (data : IssueChangelog) :
    extractPhases stages data
      = (phasePairs data).foldl (fun st p => phaseStep stages p.1 st p.2)
          { todo := data.created, inProgress := none, review := none, complete := none } := by
  unfold extractPhases phasePairs
  exact foldl_hist_eq_pairs stages data.histories _

theorem phaseStep_todo (stages : Stages) (w : Option String) (st : PhaseTimes)
    (it : ChangeItem) :
    (phaseStep stages w st it).todo = setIf st.todo (hitsGroup stages.todo it) w := by
  unfold phaseStep hitsGroup
  cases h : (it.field = "status" && truthy it.toString) with
  | true => simp [h]
  | false => simp [h, setIf]

theorem phaseStep_inProgress (stages : Stages) (w : Option String) (st : PhaseTimes)
    (it : ChangeItem) :
    (phaseStep stages w st it).inProgress
      = setIf st.inProgress (hitsGroup stages.inProgress it) w := by
  unfold phaseStep hitsGroup
  cases h : (it.field = "status" && truthy it.toString) with
  | true => simp [h]
  | false => simp [h, setIf]

theorem phaseStep_review (stages : Stages) (w : Option String) (st : PhaseTimes)
    (it : ChangeItem) :
    (phaseStep stages w st it).review = setIf st.review (hitsGroup stages.review it) w := by
  unfold phaseStep hitsGroup
  cases h : (it.field = "status" && truthy it.toString) with
  | true => simp [h]
  | false => simp [h, setIf]

theorem phaseStep_complete (stages : Stages) (w : Option String) (st : PhaseTimes)
    (it : ChangeItem) :
    (phaseStep stages w st it).complete
      = setIf st.complete (hitsGroup stages.complete it) w := by
  unfold phaseStep hitsGroup
  cases h : (it.field = "status" && truthy it.toString) with
  | true => simp [h]
  | false => simp [h, setIf]

theorem foldl_phaseStep_sel (stages : Stages) (sel : PhaseTimes → Option String)
    (group : List String)
    (hsel : ∀ w st it, sel (phaseStep stages w st it) = setIf (sel st) (hitsGroup group it) w)
    (pairs : List (Option String × ChangeItem)) (st : PhaseTimes) :
    sel (pairs.foldl (fun st p => phaseStep stages p.1 st p.2) st)
      = fieldFold group (sel st) pairs := by
  induction pairs generalizing st with
  | nil => rfl
  | cons p rest ih =>
    simp only [List.foldl_cons, fieldFold] at *
    rw [ih, ← hsel]

theorem fieldFold_truthy (group : List String) (cur : Option String)
    (pairs : List (Option String × ChangeItem)) (h : truthy cur = true) :
    fieldFold group cur pairs = cur := by
  induction pairs with
  | nil => rfl
  | cons p rest ih =>
    simp only [fieldFold, List.foldl_cons] at *
    rw [setIf, h]
    simpa using ih

theorem fieldFold_none_eq_find (group : List String)
    (pairs : List (Option String × ChangeItem))
    (hwf : ∀ p ∈ pairs, truthy p.1 = true) :
    fieldFold group none pairs
      = ((pairs.find? (fun p => hitsGroup group p.2)).bind (fun p => p.1)) := by
  induction pairs with
  | nil => rfl
  | cons p rest ih =>
    simp only [fieldFold, List.foldl_cons]
    cases h : hitsGroup group p.2 with
    | true =>
      have hw : truthy p.1 = true := hwf p (List.mem_cons_self p rest)
      have hset : setIf none true p.1 = p.1 := by
        simp [setIf, truthy]
      rw [hset]
      have hrest : List.foldl (fun c p => setIf c (hitsGroup group p.2) p.1) p.1 rest
          = fieldFold group p.1 rest := rfl
      rw [hrest, fieldFold_truthy group p.1 rest hw]
      have hfind : List.find? (fun q => hitsGroup group q.2) (p :: rest) = some p := by
        simp [List.find?_cons, h]
      rw [hfind]
      rfl
    | false =>
      have hset : setIf none false p.1 = none := by
        simp [setIf, truthy]
      rw [hset]
      have hfind : List.find? (fun q => hitsGroup group q.2) (p :: rest)
          = List.find? (fun q => hitsGroup group q.2) rest := by
        simp [List.find?_cons, h]
      rw [hfind]
      exact ih (fun q hq => hwf q (List.mem_cons_of_mem p hq))

/-- C3 (amended). Phase-Time Extractor: for the `inProgress`, `review` and
`complete` groups the returned timestamp is that of the first changelog entry
whose target status name belongs, case-insensitively, to the group; `todo` is
the creation timestamp of the issue whenever one is present, and only falls
back to the first explicit transition into a todo-named status when the
creation timestamp is missing.  Hypotheses: every history entry carries a
nonempty timestamp, and the creation timestamp is either absent or nonempty. -/
theorem C3_phase_extractor (stages : Stages) (data : IssueChangelog)
    (hwf : ∀ p ∈ phasePairs data, truthy p.1 = true)
    (hcr : data.created = none ∨ truthy data.created = true) :
    (extractPhases stages data).inProgress = specFirstEntryInto stages.inProgress data ∧
    (extractPhases stages data).review = specFirstEntryInto stages.review data ∧
    (extractPhases stages data).complete = specFirstEntryInto stages.complete data ∧
    (extractPhases stages data).todo =
      (if truthy data.created = true then data.created
       else specFirstEntryInto stages.todo data) := by
  rw [extractPhases_eq_pairs]
  refine ⟨?_, ?_, ?_, ?_⟩
  · rw [foldl_phaseStep_sel stages (fun st => st.inProgress) stages.inProgress
      (fun w st it => phaseStep_inProgress stages w st it) (phasePairs data) _]
    exact fieldFold_none_eq_find _ _ hwf
  · rw [foldl_phaseStep_sel stages (fun st => st.review) stages.review
      (fun w st it => phaseStep_review stages w st it) (phasePairs data) _]
    exact fieldFold_none_eq_find _ _ hwf
  · rw [foldl_phaseStep_sel stages (fun st => st.complete) stages.complete
      (fun w st it => phaseStep_complete stages w st it) (phasePairs data) _]
    exact fieldFold_none_eq_find _ _ hwf
  · rw [foldl_phaseStep_sel stages (fun st => st.todo) stages.todo
      (fun w st it => phaseStep_todo stages w st it) (phasePairs data) _]
    rcases hcr with hnone | htr
    · rw [hnone]
      simp only [truthy]
      rw [if_neg (by simp)]
      exact fieldFold_none_eq_find _ _ hwf
    · rw [if_pos htr]
      exact fieldFold_truthy _ _ _ htr

/-- Status groups of the round-trip scenario of the spec. -/
def scnStages : Stages :=
  { todo := ["To Do"], inProgress := ["In Progress"], review := ["Review"],
    complete := ["Done"] }

/-- Round-trip scenario changelog: created at T0 in status To Do, then
transitions to In Progress at T1, Review at T2, Done at T3. -/
def scnData : IssueChangelog :=
  { created := some "T0"
    histories :=
      [ { created := some "T1", items := [{ field := "status", toString := some "In Progress" }] }
      , { created := some "T2", items := [{ field := "status", toString := some "Review" }] }
      , { created := some "T3", items := [{ field := "status", toString := some "Done" }] } ] }

/-- Changelog refuting the claim as stated: the creation timestamp is T0 and an
explicit transition into the todo-named status happens later, at T5. -/
def ceData : IssueChangelog :=
  { created := some "T0"
    histories :=
      [ { created := some "T5", items := [{ field := "status", toString := some "To Do" }] } ] }

/-- C3 counterexample: the first changelog entry into the todo group is at T5,
yet the extractor returns the creation timestamp T0 for `todo`, so the claimed
first-entry rule for the todo group is false on this input. -/
theorem C3_phase_extractor_ce :
    specFirstEntryInto scnStages.todo ceData = some "T5" ∧
    (extractPhases scnStages ceData).todo = some "T0" ∧
    some "T0" ≠ some "T5" := by
  refine ⟨by decide, by decide, by decide⟩

/-- C3 witness: the amended theorem applied to the round-trip scenario. -/
theorem C3_phase_extractor_witness :
    (extractPhases scnStages scnData).inProgress
        = specFirstEntryInto scnStages.inProgress scnData ∧
    (extractPhases scnStages scnData).review = specFirstEntryInto scnStages.review scnData ∧
    (extractPhases scnStages scnData).complete
        = specFirstEntryInto scnStages.complete scnData ∧
    (extractPhases scnStages scnData).todo =
      (if truthy scnData.created = true then scnData.created
       else specFirstEntryInto scnStages.todo scnData) :=
  C3_phase_extractor scnStages scnData (by decide) (by decide)

/-! ## Scope Classifier (`getJiraSprintScopeChanges`, `src/lib/jira.ts`) -/

/-- One changelog item as read by the scope classifier. -/
structure SprintChangeItem where
  field : String
  fromString : Option String
  toString : Option String
  deriving Repr, DecidableEq

/-- One changelog history as read by the scope classifier; `whenMs` is the
parsed `h.created` timestamp, `none` covering missing and NaN alike. -/
structure SprintHistory where
  whenMs : Option Int
  items : List SprintChangeItem
  deriving Repr, DecidableEq

/-- The classification values of `getJiraSprintScopeChanges`. -/
inductive ScopeTag where
  | added
  | removed
  | committed
  deriving Repr, DecidableEq

/-- Embedding of `containsSprintId`: falsy text is rejected outright and
`encodes` abstracts the regex test that the text carries the target sprint id. -/
def containsSprintIdOpt (encodes : String → Bool) : Option String → Bool
  | none => false
  | some s => if s = "" then false else encodes s

/-- Embedding of `Number.isFinite(startMs) && Number.isFinite(when) && when > startMs`. -/
def afterStart (startMs whenMs : Option Int) : Bool :=
  match startMs, whenMs with
  | some s, some w => decide (s < w)
  | _, _ => false

/-- Body of the inner loop of `getJiraSprintScopeChanges` for one changelog
item, updating the pair of flags (addedAfterStart, wasInAtStart). -/
def classifyStep (encodes : String → Bool) (startMs whenMs : Option Int)
    (acc : Bool × Bool) (ch : SprintChangeItem) : Bool × Bool :=
  if ch.field = "Sprint" then
    let toHas := containsSprintIdOpt encodes ch.toString
    let fromHas := containsSprintIdOpt encodes ch.fromString
    let acc1 :=
      if !fromHas && toHas then
        if afterStart startMs whenMs then (true, acc.2) else (acc.1, true)
      else acc
    if fromHas && !toHas then
      if afterStart startMs whenMs then acc1 else (acc1.1, true)
    else acc1
  else acc

/-- The flags accumulated over all histories of one issue. -/
def classifyFlags (encodes : String → Bool) (startMs : Option Int)
    (histories : List SprintHistory) : Bool × Bool :=
  histories.foldl (fun acc h => h.items.foldl (classifyStep encodes startMs h.whenMs) acc)
    (false, false)

/-- Per-issue result of `getJiraSprintScopeChanges`: added if addedAfterStart,
committed if wasInAtStart, committed by default. -/
def classifyOne (encodes : String → Bool) (startMs : Option Int)
    (histories : List SprintHistory) : ScopeTag :=
  let flags := classifyFlags encodes startMs histories
  if flags.1 then ScopeTag.added
  else if flags.2 then ScopeTag.committed
  else ScopeTag.committed

/-- Batch loop of `getJiraSprintScopeChanges`: sequential per-key fetches, a
failed fetch contributing nothing. -/
def getJiraSprintScopeChanges (encodes : String → Bool) (startMs : Option Int)
    (fetch : String → Option (List SprintHistory)) :
    List String → List (String × ScopeTag)
  | [] => []
  | key :: rest =>
    (match fetch key with
     | none => []
     | some hs => [(key, classifyOne encodes startMs hs)]) ++
      getJiraSprintScopeChanges encodes startMs fetch rest

/-- All (history timestamp, item) pairs of the sprint changelog in scan order. -/
def sprintPairs (histories : List SprintHistory) : List (Option Int × SprintChangeItem) :=
  histories.flatMap (fun h => h.items.map (fun ch => (h.whenMs, ch)))

/-- A Sprint-field entry whose to-value encodes the sprint and whose
from-value does not: an entry event. -/
def isEntryEvent (encodes : String → Bool) (ch : SprintChangeItem) : Bool :=
  ch.field = "Sprint" && !(containsSprintIdOpt encodes ch.fromString)
    && containsSprintIdOpt encodes ch.toString

/-- An entry event dated strictly after sprint start. -/
def isEntryAfterStart (encodes : String → Bool) (startMs : Option Int)
    (p : Option Int × SprintChangeItem) : Bool :=
  isEntryEvent encodes p.2 && afterStart startMs p.1

/-- A Sprint-field entry removing the issue from the sprint, not dated strictly
after sprint start. -/
def isRemovalOnOrBefore (encodes : String → Bool) (startMs : Option Int)
    (p : Option Int × SprintChangeItem) : Bool :=
  p.2.field = "Sprint" && containsSprintIdOpt encodes p.2.fromString
    && !(containsSprintIdOpt encodes p.2.toString) && !(afterStart startMs p.1)

theorem foldl_sprintHist_eq_pairs (encodes : String → Bool) (startMs : Option Int)
    (hs : List SprintHistory) (acc : Bool × Bool) :
    hs.foldl (fun acc h => h.items.foldl (classifyStep encodes startMs h.whenMs) acc) acc
      = (hs.flatMap (fun h => h.items.map (fun ch => (h.whenMs, ch)))).foldl
          (fun acc p => classifyStep encodes startMs p.1 acc p.2) acc := by
  induction hs generalizing acc with
  | nil => rfl
  | cons h rest ih =>
    simp only [List.flatMap_cons, List.foldl_append, List.foldl_map, List.foldl_cons]
    rw [← ih]

theorem classifyStep_fst (encodes : String → Bool) (startMs whenMs : Option Int)
    (acc : Bool × Bool) (ch : SprintChangeItem) :
    (classifyStep encodes startMs whenMs acc ch).1
      = (acc.1 || isEntryAfterStart encodes startMs (whenMs, ch)) := by
  unfold classifyStep isEntryAfterStart isEntryEvent
  by_cases hf : ch.field = "Sprint"
  · cases hfrom : containsSprintIdOpt encodes ch.fromString <;>
      cases hto : containsSprintIdOpt encodes ch.toString <;>
      cases hafter : afterStart startMs whenMs <;>
      simp [hf, hfrom, hto, hafter]
  · simp [hf]

theorem foldl_classifyStep_fst (encodes : String → Bool) (startMs : Option Int)
    (pairs : List (Option Int × SprintChangeItem)) (acc : Bool × Bool) :
    (pairs.foldl (fun acc p => classifyStep encodes startMs p.1 acc p.2) acc).1
      = (acc.1 || pairs.any (isEntryAfterStart encodes startMs)) := by
  induction pairs generalizing acc with
  | nil => simp
  | cons p rest ih =>
    simp only [List.foldl_cons, List.any_cons]
    rw [ih, classifyStep_fst, Bool.or_assoc]

theorem classifyFlags_fst (encodes : String → Bool) (startMs : Option Int)
    (hs : List SprintHistory) :
    (classifyFlags encodes startMs hs).1
      = (sprintPairs hs).any (isEntryAfterStart encodes startMs) := by
  unfold classifyFlags sprintPairs
  rw [foldl_sprintHist_eq_pairs, foldl_classifyStep_fst]
  simp

/-- Helper: the classifier can only produce added or committed. -/
theorem classifyOne_ne_removed (encodes : String → Bool) (startMs : Option Int)
    (hs : List SprintHistory) :
    classifyOne encodes startMs hs ≠ ScopeTag.removed := by
  unfold classifyOne
  by_cases h1 : (classifyFlags encodes startMs hs).1 = true
  · simp [h1]
  · by_cases h2 : (classifyFlags encodes startMs hs).2 = true <;>
      simp [h1, h2]

/-- C4. Scope Classifier: the issue is classified added exactly when some
Sprint-field entry whose to-value encodes the sprint id (and from-value does
not) is dated strictly after sprint start; with no such entry the result is
committed, in particular when no Sprint-field entry exists at all, and when
the only signal is a removal on or before start. -/
theorem C4_scope_classifier (encodes : String → Bool) (startMs : Option Int)
    (hs : List SprintHistory) :
    (classifyOne encodes startMs hs = ScopeTag.added ↔
      (sprintPairs hs).any (isEntryAfterStart encodes startMs) = true) ∧
    ((sprintPairs hs).any (isEntryAfterStart encodes startMs) = false →
      classifyOne encodes startMs hs = ScopeTag.committed) ∧
    ((∀ p ∈ sprintPairs hs, p.2.field ≠ "Sprint") →
      classifyOne encodes startMs hs = ScopeTag.committed) ∧
    ((sprintPairs hs).any (isRemovalOnOrBefore encodes startMs) = true →
      (sprintPairs hs).any (isEntryAfterStart encodes startMs) = false →
      classifyOne encodes startMs hs = ScopeTag.committed) := by
  have hadded : classifyOne encodes startMs hs = ScopeTag.added ↔
      (sprintPairs hs).any (isEntryAfterStart encodes startMs) = true := by
    unfold classifyOne
    rw [← classifyFlags_fst encodes startMs hs]
    by_cases h1 : (classifyFlags encodes startMs hs).1 = true
    · simp [h1]
    · by_cases h2 : (classifyFlags encodes startMs hs).2 = true <;>
        simp [h1, h2]
  have hcomm : (sprintPairs hs).any (isEntryAfterStart encodes startMs) = false →
      classifyOne encodes startMs hs = ScopeTag.committed := by
    intro hno
    unfold classifyOne
    rw [← classifyFlags_fst encodes startMs hs] at hno
    by_cases h2 : (classifyFlags encodes startMs hs).2 = true <;> simp [hno, h2]
  refine ⟨hadded, hcomm, ?_, fun _ => hcomm⟩
  intro hnone
  apply hcomm
  rw [List.any_eq_false]
  intro p hp
  have := hnone p hp
  unfold isEntryAfterStart isEntryEvent
  simp [this]

/-- Concrete encoder for witnesses: the to/from value encodes sprint id 5
exactly when it is the literal text id=5. -/
def enc5 : String → Bool := fun s => s = "id=5"

/-- Issue moved into the sprint one day after start. -/
def hsAddedLate : List SprintHistory :=
  [ { whenMs := some 200, items := [{ field := "Sprint", fromString := none, toString := some "id=5" }] } ]

/-- Issue removed from the sprint before start. -/
def hsRemovedEarly : List SprintHistory :=
  [ { whenMs := some 50, items := [{ field := "Sprint", fromString := some "id=5", toString := none }] } ]

/-- C4 witness: with sprint start at 100, an entry event at 200 is classified
added; an empty changelog and a removal at 50 are classified committed. -/
theorem C4_scope_classifier_witness :
    classifyOne enc5 (some 100) hsAddedLate = ScopeTag.added ∧
    classifyOne enc5 (some 100) [] = ScopeTag.committed ∧
    classifyOne enc5 (some 100) hsRemovedEarly = ScopeTag.committed := by
  refine ⟨(C4_scope_classifier enc5 (some 100) hsAddedLate).1.mpr (by decide),
    (C4_scope_classifier enc5 (some 100) []).2.2.1 (by decide),
    (C4_scope_classifier enc5 (some 100) hsRemovedEarly).2.2.2 (by decide) (by decide)⟩

/-! ## Batch isolation and the sprint-stats scope totals -/

theorem phase_batch_lookup (stages : Stages) (fetch : String → Option IssueChangelog)
    (keys : List String) (k : String) :
    alookup (getIssuePhaseTimes stages fetch keys) k
      = if k ∈ keys then (fetch k).map (extractPhases stages) else none := by
  induction keys with
  | nil => simp [getIssuePhaseTimes, alookup]
  | cons key rest ih =>
    by_cases hk : key = k
    · subst hk
      cases hf : fetch key with
      | none =>
        simp only [getIssuePhaseTimes, hf, List.nil_append]
        rw [ih, hf]
        by_cases hmem : key ∈ rest <;> simp [hmem]
      | some d =>
        simp [getIssuePhaseTimes, hf, alookup, List.find?_cons]
    · cases hf : fetch key with
      | none =>
        simp only [getIssuePhaseTimes, hf, List.nil_append]
        rw [ih]
        by_cases hmem : k ∈ rest
        · rw [if_pos hmem, if_pos (List.mem_cons_of_mem key hmem)]
        · rw [if_neg hmem,
            if_neg (fun hc => (List.mem_cons.mp hc).elim (fun he => hk he.symm) hmem)]
      | some d =>
        simp only [getIssuePhaseTimes, hf, List.singleton_append]
        have hcons : alookup ((key, extractPhases stages d) :: getIssuePhaseTimes stages fetch rest) k
            = alookup (getIssuePhaseTimes stages fetch rest) k := by
          simp [alookup, List.find?_cons, hk]
        rw [hcons, ih]
        by_cases hmem : k ∈ rest
        · rw [if_pos hmem, if_pos (List.mem_cons_of_mem key hmem)]
        · rw [if_neg hmem,
            if_neg (fun hc => (List.mem_cons.mp hc).elim (fun he => hk he.symm) hmem)]

theorem scope_batch_lookup (encodes : String → Bool) (startMs : Option Int)
    (fetch : String → Option (List SprintHistory)) (keys : List String) (k : String) :
    alookup (getJiraSprintScopeChanges encodes startMs fetch keys) k
      = if k ∈ keys then (fetch k).map (classifyOne encodes startMs) else none := by
  induction keys with
  | nil => simp [getJiraSprintScopeChanges, alookup]
  | cons key rest ih =>
    by_cases hk : key = k
    · subst hk
      cases hf : fetch key with
      | none =>
        simp only [getJiraSprintScopeChanges, hf, List.nil_append]
        rw [ih, hf]
        by_cases hmem : key ∈ rest <;> simp [hmem]
      | some d =>
        simp [getJiraSprintScopeChanges, hf, alookup, List.find?_cons]
    · cases hf : fetch key with
      | none =>
        simp only [getJiraSprintScopeChanges, hf, List.nil_append]
        rw [ih]
        by_cases hmem : k ∈ rest
        · rw [if_pos hmem, if_pos (List.mem_cons_of_mem key hmem)]
        · rw [if_neg hmem,
            if_neg (fun hc => (List.mem_cons.mp hc).elim (fun he => hk he.symm) hmem)]
      | some d =>
        simp only [getJiraSprintScopeChanges, hf, List.singleton_append]
        have hcons : alookup ((key, classifyOne encodes startMs d) ::
            getJiraSprintScopeChanges encodes startMs fetch rest) k
            = alookup (getJiraSprintScopeChanges encodes startMs fetch rest) k := by
          simp [alookup, List.find?_cons, hk]
        rw [hcons, ih]
        by_cases hmem : k ∈ rest
        · rw [if_pos hmem, if_pos (List.mem_cons_of_mem key hmem)]
        · rw [if_neg hmem,
            if_neg (fun hc => (List.mem_cons.mp hc).elim (fun he => hk he.symm) hmem)]

/-- C9. Per-item failure atomicity of the two changelog-scanning batch
functions: the entry of each key depends only on the outcome of fetching that
key, a failed key is simply absent, and all other entries are unaffected. -/
theorem C9_per_item_isolation :
    (∀ (stages : Stages) (fetch : String → Option IssueChangelog)
        (keys : List String) (k : String),
      alookup (getIssuePhaseTimes stages fetch keys) k
        = if k ∈ keys then (fetch k).map (extractPhases stages) else none) ∧
    (∀ (encodes : String → Bool) (startMs : Option Int)
        (fetch : String → Option (List SprintHistory)) (keys : List String) (k : String),
      alookup (getJiraSprintScopeChanges encodes startMs fetch keys) k
        = if k ∈ keys then (fetch k).map (classifyOne encodes startMs) else none) :=
  ⟨phase_batch_lookup, scope_batch_lookup⟩

/-- Story points of a sprint issue as used by the sprint-stats route:
`typeof it.storyPoints === "number" ? it.storyPoints : 0`. -/
structure SprintIssue where
  key : String
  storyPoints : Option ℚ
  reviewAt : Option Int
  completeAt : Option Int
  deriving DecidableEq

/-- Numeric story points, defaulting to 0. -/
def spOf (it : SprintIssue) : ℚ := it.storyPoints.getD 0

/-- Scope totals assembled by the sprint-stats route. -/
structure ScopeTotals where
  committedSP : ℚ
  addedSP : ℚ
  removedSP : ℚ
  totalScope : ℚ
  deriving DecidableEq

/-- Embedding of the scope-total loop of the sprint-stats route: each issue is
counted as added when its classification is added, otherwise as committed;
`removedSP` is the literal constant 0 of the source and
`totalScope = max(0, committedSP + addedSP - removedSP)`. -/
def computeScopeTotals (issues : List SprintIssue)
    (scopeByKey : String → Option ScopeTag) : ScopeTotals :=
  let cp := issues.foldl (fun acc it =>
      let tag := (scopeByKey it.key).getD ScopeTag.committed
      if tag = ScopeTag.added then (acc.1, acc.2 + spOf it) else (acc.1 + spOf it, acc.2))
    ((0 : ℚ), (0 : ℚ))
  { committedSP := cp.1, addedSP := cp.2, removedSP := 0,
    totalScope := max 0 (cp.1 + cp.2 - 0) }

/-- C10. The scope classifier never maps any issue to removed, consequently
`scopeRemovedSP` is the constant 0 and the total scope always equals
`max(0, committedSP + addedSP)`. -/
theorem C10_never_removed :
    (∀ (encodes : String → Bool) (startMs : Option Int) (hs : List SprintHistory),
      classifyOne encodes startMs hs ≠ ScopeTag.removed) ∧
    (∀ (encodes : String → Bool) (startMs : Option Int)
        (fetch : String → Option (List SprintHistory)) (keys : List String)
        (k : String) (v : ScopeTag),
      alookup (getJiraSprintScopeChanges encodes startMs fetch keys) k = some v →
      v ≠ ScopeTag.removed) ∧
    (∀ (issues : List SprintIssue) (scopeByKey : String → Option ScopeTag),
      (computeScopeTotals issues scopeByKey).removedSP = 0 ∧
      (computeScopeTotals issues scopeByKey).totalScope
        = max 0 ((computeScopeTotals issues scopeByKey).committedSP
            + (computeScopeTotals issues scopeByKey).addedSP)) := by
  refine ⟨classifyOne_ne_removed, ?_, ?_⟩
  · intro encodes startMs fetch keys k v hv
    rw [scope_batch_lookup] at hv
    by_cases hmem : k ∈ keys
    · rw [if_pos hmem] at hv
      cases hf : fetch k with
      | none => rw [hf] at hv; exact Option.noConfusion hv
      | some hs =>
        rw [hf] at hv
        have h2 : some (classifyOne encodes startMs hs) = some v := hv
        have : v = classifyOne encodes startMs hs := by
          injection h2 with h
          exact h.symm
        rw [this]
        exact classifyOne_ne_removed encodes startMs hs
    · rw [if_neg hmem] at hv; exact Option.noConfusion hv
  · intro issues scopeByKey
    refine ⟨rfl, ?_⟩
    have hts : (computeScopeTotals issues scopeByKey).totalScope
        = max 0 ((computeScopeTotals issues scopeByKey).committedSP
            + (computeScopeTotals issues scopeByKey).addedSP - 0) := rfl
    rw [hts, sub_zero]

/-- C10 witness: a one-key batch with a successful empty changelog fetch has a
committed entry, and the atomicity consequence of the theorem applies to it. -/
theorem C10_never_removed_witness :
    alookup (getJiraSprintScopeChanges enc5 (some 100) (fun _ => some []) ["A"]) "A"
        = some ScopeTag.committed ∧
    ScopeTag.committed ≠ ScopeTag.removed :=
  ⟨by decide,
    C10_never_removed.2.1 enc5 (some 100) (fun _ => some []) ["A"] "A"
      ScopeTag.committed (by decide)⟩

/-! ## Median (`median`, `src/lib/jira.ts`) -/

/-- Embedding of `median`: null for the empty list, otherwise sort a copy
ascending, take the middle element for odd length and the mean of the two
middle elements for even length. -/
def median (nums : List ℚ) : Option ℚ :=
  if nums.length = 0 then none
  else
    let arr := List.insertionSort (fun x y : ℚ => x ≤ y) nums
    let m := arr.length / 2
    if arr.length % 2 = 1 then some (arr.getD m 0)
    else some ((arr.getD (m - 1) 0 + arr.getD m 0) / 2)

/-- C6. The median function: null on the empty list, the sole element for a
one-element list, and for an even-length list the average of the two middle
values of the ascending sort; in particular median([1,2,3,4]) = 2.5. -/
theorem C6_median :
    median [] = none ∧
    (∀ x : ℚ, median [x] = some x) ∧
    (∀ l : List ℚ, l ≠ [] → l.length % 2 = 0 →
      median l
        = some (((List.insertionSort (fun x y : ℚ => x ≤ y) l).getD (l.length / 2 - 1) 0
            + (List.insertionSort (fun x y : ℚ => x ≤ y) l).getD (l.length / 2) 0) / 2)) ∧
    median [1, 2, 3, 4] = some (5 / 2) := by
  refine ⟨rfl, ?_, ?_, ?_⟩
  · intro x
    simp [median, List.insertionSort, List.orderedInsert]
  · intro l hne heven
    have hlen : (List.insertionSort (fun x y : ℚ => x ≤ y) l).length = l.length :=
      List.length_insertionSort _ l
    unfold median
    rw [if_neg (by simpa [List.length_eq_zero] using hne)]
    simp only [hlen]
    rw [if_neg (by rw [heven]; decide)]
  · have h4 : List.insertionSort (fun x y : ℚ => x ≤ y) [1, 2, 3, 4] = [1, 2, 3, 4] := by
      simp [List.insertionSort, List.orderedInsert]
    unfold median
    rw [h4]
    norm_num

/-- C6 witness: the even-length clause of the theorem applied to [1,2,3,4]. -/
theorem C6_median_witness :
    median [1, 2, 3, 4]
      = some (((List.insertionSort (fun x y : ℚ => x ≤ y) [1, 2, 3, 4]).getD
          (([1, 2, 3, 4] : List ℚ).length / 2 - 1) 0
        + (List.insertionSort (fun x y : ℚ => x ≤ y) [1, 2, 3, 4]).getD
          (([1, 2, 3, 4] : List ℚ).length / 2) 0) / 2) :=
  C6_median.2.2.1 [1, 2, 3, 4] (by decide) (by decide)

/-! ## Lifecycle Aggregator (`computeLifecycle`, `diffHours`, `src/lib/jira.ts`) -/

/-- The pull-request fields read by `computeLifecycle`. -/
structure PR where
  url : String
  createdAt : String
  readyForReviewAt : Option String
  firstReviewAt : Option String
  mergedAt : Option String
  closedAt : Option String
  isDraft : Bool
  additions : Int
  deletions : Int
  deriving DecidableEq

/-- Per-PR lifecycle record produced by `computeLifecycle`. -/
structure PRLifecycle where
  url : String
  createdAt : String
  workStartedAt : Option String
  readyForReviewAt : Option String
  firstReviewAt : Option String
  mergedAt : Option String
  closedAt : Option String
  isDraft : Bool
  additions : Int
  deletions : Int
  timeToReadyHours : Option ℚ
  timeToFirstReviewHours : Option ℚ
  reviewToMergeHours : Option ℚ
  cycleTimeHours : Option ℚ
  inProgressToCreatedHours : Option ℚ
  deriving DecidableEq

/-- Population statistics of `computeLifecycle`. -/
structure LifecycleStats where
  sampleSize : Nat
  medianTimeToReadyHours : Option ℚ
  medianTimeToFirstReviewHours : Option ℚ
  medianReviewToMergeHours : Option ℚ
  medianCycleTimeHours : Option ℚ
  medianInProgressToCreatedHours : Option ℚ
  deriving DecidableEq

/-- Embedding of `diffHours`: null when either endpoint is falsy, null when
either endpoint fails to parse to a finite time, otherwise the hour difference
clamped to zero.  `parse` abstracts `new Date(s).getTime()` restricted to its
finite outcomes. -/
def diffHours (parse : String → Option Int) (a b : Option String) : Option ℚ :=
  if !(truthy a) || !(truthy b) then none
  else
    match parse (a.getD ""), parse (b.getD "") with
    | some t1, some t2 => some (max 0 (((t2 : ℚ) - (t1 : ℚ)) / 3600000))
    | _, _ => none

/-- Per-PR body of `computeLifecycle`. `workStartedOf` models the lookup
`workStartedByPrUrl[p.url] ?? null`. -/
def computeLifecycleItem (parse : String → Option Int)
    (workStartedOf : String → Option String) (p : PR) : PRLifecycle :=
  let readyAt := match p.readyForReviewAt with
    | some s => some s
    | none => if p.isDraft then none else some p.createdAt
  let firstRev := p.firstReviewAt
  let mergedAt := p.mergedAt
  let closedAt := p.closedAt
  let endAt := mergedAt.orElse (fun _ => closedAt)
  let workStartedAt := workStartedOf p.url
  { url := p.url, createdAt := p.createdAt, workStartedAt := workStartedAt,
    readyForReviewAt := readyAt, firstReviewAt := firstRev, mergedAt := mergedAt,
    closedAt := closedAt, isDraft := p.isDraft, additions := p.additions,
    deletions := p.deletions,
    timeToReadyHours := diffHours parse (some p.createdAt) readyAt,
    timeToFirstReviewHours := diffHours parse (some p.createdAt) firstRev,
    reviewToMergeHours :=
      if truthy mergedAt then
        diffHours parse (firstRev.orElse (fun _ => readyAt.orElse (fun _ => some p.createdAt)))
          mergedAt
      else none,
    cycleTimeHours := if truthy endAt then diffHours parse (some p.createdAt) endAt else none,
    inProgressToCreatedHours :=
      if truthy workStartedAt then diffHours parse workStartedAt (some p.createdAt) else none }

/-- Embedding of `computeLifecycle`: the per-PR records plus the population
statistics, each median taken over the non-null values of its duration. -/
def computeLifecycle (parse : String → Option Int)
    (workStartedOf : String → Option String) (prs : List PR) :
    List PRLifecycle × LifecycleStats :=
  let items := prs.map (computeLifecycleItem parse workStartedOf)
  let toReady := (items.map (fun i => i.timeToReadyHours)).filterMap id
  let toFirst := (items.map (fun i => i.timeToFirstReviewHours)).filterMap id
  let revToMerge := (items.map (fun i => i.reviewToMergeHours)).filterMap id
  let cycle := (items.map (fun i => i.cycleTimeHours)).filterMap id
  let inProgToCreated := (items.map (fun i => i.inProgressToCreatedHours)).filterMap id
  (items,
    { sampleSize := items.length
      medianTimeToReadyHours := median toReady
      medianTimeToFirstReviewHours := median toFirst
      medianReviewToMergeHours := median revToMerge
      medianCycleTimeHours := median cycle
      medianInProgressToCreatedHours := median inProgToCreated })

theorem diffHours_nonneg (parse : String → Option Int) (a b : Option String) (q : ℚ)
    (h : diffHours parse a b = some q) : 0 ≤ q := by
  unfold diffHours at h
  by_cases hg : (!(truthy a) || !(truthy b)) = true
  · rw [if_pos hg] at h
    exact Option.noConfusion h
  · rw [if_neg (by simpa using hg)] at h
    cases h1 : parse (a.getD "") with
    | none => rw [h1] at h; exact Option.noConfusion h
    | some t1 =>
      cases h2 : parse (b.getD "") with
      | none => rw [h1, h2] at h; exact Option.noConfusion h
      | some t2 =>
        rw [h1, h2] at h
        have : max 0 (((t2 : ℚ) - (t1 : ℚ)) / 3600000) = q := by
          injection h
        rw [← this]
        exact le_max_left 0 _

theorem diffHours_none_left (parse : String → Option Int) (b : Option String) :
    diffHours parse none b = none := by
  unfold diffHours
  simp [truthy]

theorem diffHours_none_right (parse : String → Option Int) (a : Option String) :
    diffHours parse a none = none := by
  unfold diffHours
  simp [truthy]

theorem diffHours_unparseable (parse : String → Option Int) (a b : Option String)
    (h : parse (a.getD "") = none ∨ parse (b.getD "") = none) :
    diffHours parse a b = none := by
  unfold diffHours
  by_cases hg : (!(truthy a) || !(truthy b)) = true
  · rw [if_pos hg]
  · rw [if_neg (by simpa using hg)]
    rcases h with h1 | h2
    · rw [h1]
    · rw [h2]
      cases parse (a.getD "") <;> rfl

/-- C5. Lifecycle Aggregator, per-PR record: the ready-for-review fallback
chain, the five duration formulas over `diffHours` with their null guards
(null when unmerged, when neither merged nor closed, when no work-started
timestamp), nullness of `diffHours` on missing or unparseable endpoints, and
non-negativity of every produced duration. -/
theorem C5_lifecycle_item (parse : String → Option Int)
    (workStartedOf : String → Option String) (p : PR) :
    (∀ t, p.readyForReviewAt = some t →
      (computeLifecycleItem parse workStartedOf p).readyForReviewAt = some t) ∧
    (p.readyForReviewAt = none → p.isDraft = false →
      (computeLifecycleItem parse workStartedOf p).readyForReviewAt = some p.createdAt) ∧
    (p.readyForReviewAt = none → p.isDraft = true →
      (computeLifecycleItem parse workStartedOf p).readyForReviewAt = none) ∧
    ((computeLifecycleItem parse workStartedOf p).timeToReadyHours
      = diffHours parse (some p.createdAt)
          (computeLifecycleItem parse workStartedOf p).readyForReviewAt) ∧
    ((computeLifecycleItem parse workStartedOf p).timeToFirstReviewHours
      = diffHours parse (some p.createdAt) p.firstReviewAt) ∧
    (p.mergedAt = none →
      (computeLifecycleItem parse workStartedOf p).reviewToMergeHours = none) ∧
    (truthy p.mergedAt = true →
      (computeLifecycleItem parse workStartedOf p).reviewToMergeHours
        = diffHours parse
            (p.firstReviewAt.orElse (fun _ =>
              ((computeLifecycleItem parse workStartedOf p).readyForReviewAt).orElse
                (fun _ => some p.createdAt)))
            p.mergedAt) ∧
    (p.mergedAt = none → p.closedAt = none →
      (computeLifecycleItem parse workStartedOf p).cycleTimeHours = none) ∧
    (truthy (p.mergedAt.orElse (fun _ => p.closedAt)) = true →
      (computeLifecycleItem parse workStartedOf p).cycleTimeHours
        = diffHours parse (some p.createdAt) (p.mergedAt.orElse (fun _ => p.closedAt))) ∧
    (workStartedOf p.url = none →
      (computeLifecycleItem parse workStartedOf p).inProgressToCreatedHours = none) ∧
    (truthy (workStartedOf p.url) = true →
      (computeLifecycleItem parse workStartedOf p).inProgressToCreatedHours
        = diffHours parse (workStartedOf p.url) (some p.createdAt)) ∧
    (∀ a b, truthy a = false ∨ truthy b = false ∨
        parse (a.getD "") = none ∨ parse (b.getD "") = none →
      diffHours parse a b = none) ∧
    (∀ q, (computeLifecycleItem parse workStartedOf p).timeToReadyHours = some q → 0 ≤ q) ∧
    (∀ q, (computeLifecycleItem parse workStartedOf p).timeToFirstReviewHours = some q → 0 ≤ q) ∧
    (∀ q, (computeLifecycleItem parse workStartedOf p).reviewToMergeHours = some q → 0 ≤ q) ∧
    (∀ q, (computeLifecycleItem parse workStartedOf p).cycleTimeHours = some q → 0 ≤ q) ∧
    (∀ q, (computeLifecycleItem parse workStartedOf p).inProgressToCreatedHours = some q → 0 ≤ q) := by
  refine ⟨?_, ?_, ?_, ?_, rfl, ?_, ?_, ?_, ?_, ?_, ?_, ?_, ?_, ?_, ?_, ?_, ?_⟩
  · intro t ht
    simp [computeLifecycleItem, ht]
  · intro h1 h2
    simp [computeLifecycleItem, h1, h2]
  · intro h1 h2
    simp [computeLifecycleItem, h1, h2]
  · rfl
  · intro h1
    simp [computeLifecycleItem, h1, truthy]
  · intro h1
    have : truthy p.mergedAt = true := h1
    simp only [computeLifecycleItem, this, if_pos]
  · intro h1 h2
    simp [computeLifecycleItem, h1, h2, truthy, Option.orElse]
  · intro h1
    simp only [computeLifecycleItem, h1, if_pos]
  · intro h1
    simp [computeLifecycleItem, h1, truthy]
  · intro h1
    simp only [computeLifecycleItem, h1, if_pos]
  · intro a b h
    rcases h with h | h | h | h
    · unfold diffHours
      rw [if_pos (by simp [h])]
    · unfold diffHours
      rw [if_pos (by simp [h])]
    · exact diffHours_unparseable parse a b (Or.inl h)
    · exact diffHours_unparseable parse a b (Or.inr h)
  · intro q hq
    exact diffHours_nonneg parse _ _ q hq
  · intro q hq
    exact diffHours_nonneg parse _ _ q hq
  · intro q hq
    by_cases hm : truthy p.mergedAt = true
    · have : (computeLifecycleItem parse workStartedOf p).reviewToMergeHours
          = diffHours parse
              (p.firstReviewAt.orElse (fun _ =>
                ((computeLifecycleItem parse workStartedOf p).readyForReviewAt).orElse
                  (fun _ => some p.createdAt)))
              p.mergedAt := by
        simp only [computeLifecycleItem, hm, if_pos]
      rw [this] at hq
      exact diffHours_nonneg parse _ _ q hq
    · have : (computeLifecycleItem parse workStartedOf p).reviewToMergeHours = none := by
        simp only [computeLifecycleItem, Bool.not_eq_true] at *
        simp [hm]
      rw [this] at hq
      exact Option.noConfusion hq
  · intro q hq
    by_cases hm : truthy (p.mergedAt.orElse (fun _ => p.closedAt)) = true
    · have : (computeLifecycleItem parse workStartedOf p).cycleTimeHours
          = diffHours parse (some p.createdAt) (p.mergedAt.orElse (fun _ => p.closedAt)) := by
        simp only [computeLifecycleItem, hm, if_pos]
      rw [this] at hq
      exact diffHours_nonneg parse _ _ q hq
    · have : (computeLifecycleItem parse workStartedOf p).cycleTimeHours = none := by
        simp only [computeLifecycleItem, Bool.not_eq_true] at *
        simp [hm]
      rw [this] at hq
      exact Option.noConfusion hq
  · intro q hq
    by_cases hm : truthy (workStartedOf p.url) = true
    · have : (computeLifecycleItem parse workStartedOf p).inProgressToCreatedHours
          = diffHours parse (workStartedOf p.url) (some p.createdAt) := by
        simp only [computeLifecycleItem, hm, if_pos]
      rw [this] at hq
      exact diffHours_nonneg parse _ _ q hq
    · have : (computeLifecycleItem parse workStartedOf p).inProgressToCreatedHours = none := by
        simp only [computeLifecycleItem, Bool.not_eq_true] at *
        simp [hm]
      rw [this] at hq
      exact Option.noConfusion hq

theorem map_sel_filterMap {α β γ : Type} (F : α → β) (sel : β → Option γ) (l : List α) :
    (((l.map F).map sel).filterMap id) = l.filterMap (fun a => sel (F a)) := by
  induction l with
  | nil => rfl
  | cons a r ih =>
    cases h : sel (F a) with
    | none => simp only [List.map_cons, List.filterMap_cons, h, id]; exact ih
    | some v => simp only [List.map_cons, List.filterMap_cons, h, id]; rw [ih]

/-- C8. Lifecycle population statistics: the sample size is the number of
input PRs, and each of the five medians ranges exactly over the PRs whose
value for that particular duration is non-null. -/
theorem C8_population_stats (parse : String → Option Int)
    (workStartedOf : String → Option String) (prs : List PR) :
    ((computeLifecycle parse workStartedOf prs).2.sampleSize = prs.length) ∧
    ((computeLifecycle parse workStartedOf prs).2.medianTimeToReadyHours
      = median (prs.filterMap
          (fun p => (computeLifecycleItem parse workStartedOf p).timeToReadyHours))) ∧
    ((computeLifecycle parse workStartedOf prs).2.medianTimeToFirstReviewHours
      = median (prs.filterMap
          (fun p => (computeLifecycleItem parse workStartedOf p).timeToFirstReviewHours))) ∧
    ((computeLifecycle parse workStartedOf prs).2.medianReviewToMergeHours
      = median (prs.filterMap
          (fun p => (computeLifecycleItem parse workStartedOf p).reviewToMergeHours))) ∧
    ((computeLifecycle parse workStartedOf prs).2.medianCycleTimeHours
      = median (prs.filterMap
          (fun p => (computeLifecycleItem parse workStartedOf p).cycleTimeHours))) ∧
    ((computeLifecycle parse workStartedOf prs).2.medianInProgressToCreatedHours
      = median (prs.filterMap
          (fun p => (computeLifecycleItem parse workStartedOf p).inProgressToCreatedHours))) := by
  refine ⟨by simp [computeLifecycle], ?_, ?_, ?_, ?_, ?_⟩
  · show median (((prs.map (computeLifecycleItem parse workStartedOf)).map
        (fun i => i.timeToReadyHours)).filterMap id) = _
    rw [map_sel_filterMap]
  · show median (((prs.map (computeLifecycleItem parse workStartedOf)).map
        (fun i => i.timeToFirstReviewHours)).filterMap id) = _
    rw [map_sel_filterMap]
  · show median (((prs.map (computeLifecycleItem parse workStartedOf)).map
        (fun i => i.reviewToMergeHours)).filterMap id) = _
    rw [map_sel_filterMap]
  · show median (((prs.map (computeLifecycleItem parse workStartedOf)).map
        (fun i => i.cycleTimeHours)).filterMap id) = _
    rw [map_sel_filterMap]
  · show median (((prs.map (computeLifecycleItem parse workStartedOf)).map
        (fun i => i.inProgressToCreatedHours)).filterMap id) = _
    rw [map_sel_filterMap]

/-- Concrete parse map for the lifecycle witness: creation at 0 ms, merge two
hours later, work started one hour after creation; everything else
unparseable. -/
def wparse : String → Option Int :=
  fun s => if s = "TC" then some 0
    else if s = "TM" then some 7200000
    else if s = "TW" then some 3600000
    else none

/-- Work-started lookup for the lifecycle witness. -/
def wsOf : String → Option String := fun u => if u = "u" then some "TW" else none

/-- Witness PR: never a draft, merged. -/
def prA : PR :=
  { url := "u", createdAt := "TC", readyForReviewAt := none, firstReviewAt := none,
    mergedAt := some "TM", closedAt := none, isDraft := false, additions := 1, deletions := 2 }

/-- Witness PR: still a draft, neither merged nor closed, no linked issue. -/
def prB : PR :=
  { url := "v", createdAt := "TC", readyForReviewAt := none, firstReviewAt := none,
    mergedAt := none, closedAt := none, isDraft := true, additions := 0, deletions := 0 }

/-- Witness PR: explicit ready-for-review event. -/
def prC : PR :=
  { url := "v", createdAt := "TC", readyForReviewAt := some "TR", firstReviewAt := none,
    mergedAt := none, closedAt := none, isDraft := true, additions := 0, deletions := 0 }

/-- C5 witness: the per-PR theorem applied to three concrete PRs, discharging
every hypothesised clause. -/
theorem C5_lifecycle_item_witness :
    (computeLifecycleItem wparse wsOf prC).readyForReviewAt = some "TR" ∧
    (computeLifecycleItem wparse wsOf prA).readyForReviewAt = some prA.createdAt ∧
    (computeLifecycleItem wparse wsOf prB).readyForReviewAt = none ∧
    (computeLifecycleItem wparse wsOf prB).reviewToMergeHours = none ∧
    (computeLifecycleItem wparse wsOf prA).reviewToMergeHours
      = diffHours wparse
          (prA.firstReviewAt.orElse (fun _ =>
            ((computeLifecycleItem wparse wsOf prA).readyForReviewAt).orElse
              (fun _ => some prA.createdAt)))
          prA.mergedAt ∧
    (computeLifecycleItem wparse wsOf prB).cycleTimeHours = none ∧
    (computeLifecycleItem wparse wsOf prA).cycleTimeHours
      = diffHours wparse (some prA.createdAt) (prA.mergedAt.orElse (fun _ => prA.closedAt)) ∧
    (computeLifecycleItem wparse wsOf prB).inProgressToCreatedHours = none ∧
    (computeLifecycleItem wparse wsOf prA).inProgressToCreatedHours
      = diffHours wparse (wsOf prA.url) (some prA.createdAt) ∧
    diffHours wparse (some "nope") (some "TC") = none ∧
    (0 : ℚ) ≤ 0 ∧ (0 : ℚ) ≤ 2 := by
  obtain ⟨hA1, hA2, hA3, hA4, hA5, hA6, hA7, hA8, hA9, hA10, hA11, hA12, hA13, hA14,
    hA15, hA16, hA17⟩ := C5_lifecycle_item wparse wsOf prA
  obtain ⟨hB1, hB2, hB3, hB4, hB5, hB6, hB7, hB8, hB9, hB10, hB11, hB12, hB13, hB14,
    hB15, hB16, hB17⟩ := C5_lifecycle_item wparse wsOf prB
  obtain ⟨hC1, hC2, hC3, hC4, hC5, hC6, hC7, hC8, hC9, hC10, hC11, hC12, hC13, hC14,
    hC15, hC16, hC17⟩ := C5_lifecycle_item wparse wsOf prC
  refine ⟨hC1 "TR" rfl, hA2 rfl rfl, hB3 rfl rfl, hB6 rfl, hA7 (by decide),
    hB8 rfl rfl, hA9 (by decide), hB10 (by decide), hA11 (by decide),
    hA12 (some "nope") (some "TC") (by right; right; left; decide), ?_, ?_⟩
  · refine hA13 0 ?_
    have hready : (computeLifecycleItem wparse wsOf prA).readyForReviewAt
        = some prA.createdAt := hA2 rfl rfl
    have : (computeLifecycleItem wparse wsOf prA).timeToReadyHours
        = diffHours wparse (some prA.createdAt)
            (computeLifecycleItem wparse wsOf prA).readyForReviewAt := hA4
    rw [this, hready]
    have hd : diffHours wparse (some prA.createdAt) (some prA.createdAt)
        = some (max 0 ((((0 : Int) : ℚ) - ((0 : Int) : ℚ)) / 3600000)) := rfl
    rw [hd]
    simp only [Option.some.injEq]
    norm_num
  · refine hA15 2 ?_
    have : (computeLifecycleItem wparse wsOf prA).reviewToMergeHours
        = diffHours wparse
            (prA.firstReviewAt.orElse (fun _ =>
              ((computeLifecycleItem wparse wsOf prA).readyForReviewAt).orElse
                (fun _ => some prA.createdAt)))
            prA.mergedAt := hA7 (by decide)
    rw [this, hA2 rfl rfl]
    have hd : diffHours wparse
        ((prA.firstReviewAt).orElse (fun _ => (some prA.createdAt).orElse (fun _ => some prA.createdAt)))
        prA.mergedAt
        = some (max 0 ((((7200000 : Int) : ℚ) - ((0 : Int) : ℚ)) / 3600000)) := rfl
    rw [hd]
    simp only [Option.some.injEq]
    norm_num

/-! ## Sprint burn series (`GET`, `src/app/api/sprint-stats/route.ts`) -/

/-- Embedding of `it.reviewAt && new Date(it.reviewAt) <= d`: a missing or
unparseable timestamp never counts, otherwise compare with the day. -/
def tsLE (t : Option Int) (d : Int) : Bool :=
  match t with
  | some t => decide (t ≤ d)
  | none => false

/-- One point of the burn-down series as assembled by the route. -/
structure BurnItem where
  date : Int
  committed : ℚ
  completed : ℚ
  remaining : ℚ
  devCompleted : ℚ
  devRemaining : ℚ
  completeCompleted : ℚ
  completeRemaining : ℚ
  deriving DecidableEq

/-- Inner loop of the burn construction: dev-completed story points on a day. -/
def devDoneOn (issues : List SprintIssue) (d : Int) : ℚ :=
  issues.foldl (fun a it => if tsLE it.reviewAt d then a + spOf it else a) 0

/-- Inner loop of the burn construction: complete-completed story points on a
day. -/
def compDoneOn (issues : List SprintIssue) (d : Int) : ℚ :=
  issues.foldl (fun a it => if tsLE it.completeAt d then a + spOf it else a) 0

/-- One burn point for day `d`, mirroring the object pushed by the route. -/
def mkBurnItem (totalScope : ℚ) (issues : List SprintIssue) (d : Int) : BurnItem :=
  let devDone := devDoneOn issues d
  let compDone := compDoneOn issues d
  { date := d, committed := totalScope, completed := compDone,
    remaining := max 0 (totalScope - compDone),
    devCompleted := devDone, devRemaining := max 0 (totalScope - devDone),
    completeCompleted := compDone, completeRemaining := max 0 (totalScope - compDone) }

/-- The burn series over the days of the sprint interval. -/
def mkBurn (totalScope : ℚ) (issues : List SprintIssue) (days : List Int) : List BurnItem :=
  days.map (mkBurnItem totalScope issues)

theorem foldl_if_add_eq_sum (p : SprintIssue → Bool) (l : List SprintIssue) (a : ℚ) :
    l.foldl (fun a it => if p it then a + spOf it else a) a
      = a + ((l.filter p).map spOf).sum := by
  induction l generalizing a with
  | nil => simp
  | cons it r ih =>
    cases h : p it with
    | false =>
      simp only [List.foldl_cons, h, if_false]
      rw [ih]
      simp [List.filter_cons, h]
    | true =>
      simp only [List.foldl_cons, h, if_true]
      rw [ih]
      simp only [List.filter_cons, h, if_true, List.map_cons, List.sum_cons]
      ring

/-- C2. Sprint burn series: on every day and for both tracks the completed
value is the story-point sum of the issues whose phase timestamp is at most
that day, remaining is `max(0, scope - completed)`, and the committed value of
every burn point is the constant total scope. -/
theorem C2_burn_series (scope : ℚ) (issues : List SprintIssue) (days : List Int) :
    ∀ b ∈ mkBurn scope issues days,
      b.committed = scope ∧
      b.devCompleted = ((issues.filter (fun it => tsLE it.reviewAt b.date)).map spOf).sum ∧
      b.completeCompleted
        = ((issues.filter (fun it => tsLE it.completeAt b.date)).map spOf).sum ∧
      b.completed = b.completeCompleted ∧
      b.remaining = max 0 (scope - b.completed) ∧
      b.devRemaining = max 0 (scope - b.devCompleted) ∧
      b.completeRemaining = max 0 (scope - b.completeCompleted) := by
  intro b hb
  obtain ⟨d, hd, rfl⟩ := List.mem_map.mp hb
  have hdev : devDoneOn issues d
      = ((issues.filter (fun it => tsLE it.reviewAt d)).map spOf).sum := by
    unfold devDoneOn
    rw [foldl_if_add_eq_sum, zero_add]
  have hcomp : compDoneOn issues d
      = ((issues.filter (fun it => tsLE it.completeAt d)).map spOf).sum := by
    unfold compDoneOn
    rw [foldl_if_add_eq_sum, zero_add]
  exact ⟨rfl, hdev, hcomp, rfl, rfl, rfl, rfl⟩

/-- Witness sprint issue: 3 story points, reached review on day 1 and done on
day 2. -/
def wIssues : List SprintIssue :=
  [{ key := "A", storyPoints := some 3, reviewAt := some 1, completeAt := some 2 }]

/-- C2 witness: the burn theorem applied to a one-day series on day 2. -/
theorem C2_burn_series_witness :
    (mkBurnItem 5 wIssues 2).committed = 5 ∧
    (mkBurnItem 5 wIssues 2).devCompleted
      = ((wIssues.filter (fun it => tsLE it.reviewAt (mkBurnItem 5 wIssues 2).date)).map spOf).sum ∧
    (mkBurnItem 5 wIssues 2).completeCompleted
      = ((wIssues.filter (fun it => tsLE it.completeAt (mkBurnItem 5 wIssues 2).date)).map spOf).sum ∧
    (mkBurnItem 5 wIssues 2).completed = (mkBurnItem 5 wIssues 2).completeCompleted ∧
    (mkBurnItem 5 wIssues 2).remaining = max 0 (5 - (mkBurnItem 5 wIssues 2).completed) ∧
    (mkBurnItem 5 wIssues 2).devRemaining
      = max 0 (5 - (mkBurnItem 5 wIssues 2).devCompleted) ∧
    (mkBurnItem 5 wIssues 2).completeRemaining
      = max 0 (5 - (mkBurnItem 5 wIssues 2).completeCompleted) :=
  C2_burn_series 5 wIssues [2] (mkBurnItem 5 wIssues 2)
    (by rw [show mkBurn 5 wIssues [2] = [mkBurnItem 5 wIssues 2] from rfl]
        exact List.mem_singleton.mpr rfl)

/-! ## Sprint forecast (`avgVelocity` and the forecast block of the route) -/

/-- Embedding of `avgVelocity`: over the trailing window of the series, the
positive one-step increments are collected; a non-positive increment
contributes neither to the sum nor to the count; the result is their mean, 0
when the series is too short or no increment is positive. -/
def avgVelocity (series : List ℚ) (window : Nat) : ℚ :=
  if series.length < 2 then 0
  else
    let start := max 1 (series.length - window)
    let incs := (List.range (series.length - start)).map
      (fun j => series.getD (start + j) 0 - series.getD (start + j - 1) 0)
    let pos := incs.filter (fun x => decide (0 < x))
    if pos.length = 0 then 0 else pos.sum / (pos.length : ℚ)

/-- Forecast values written onto one future burn point. -/
structure ForecastPoint where
  forecastCompleted : ℚ
  forecastRemaining : ℚ
  deriving DecidableEq

/-- Embedding of the projection loop: starting from the last historical value,
each future day adds the velocity capped at the total scope. -/
def projectTrack (totalScope v cur : ℚ) : Nat → List ForecastPoint
  | 0 => []
  | n + 1 =>
    let c := min totalScope (cur + v)
    { forecastCompleted := c, forecastRemaining := max 0 (totalScope - c) } ::
      projectTrack totalScope v c n

/-- Forecast output of one track: the projected points and the completion
date `today + ceil(remaining / velocity)`. -/
structure TrackForecast where
  points : List ForecastPoint
  completionDate : Int
  deriving DecidableEq

/-- Per-track forecast of the route: produced only when the trailing velocity
is strictly positive, otherwise nothing. -/
def forecastTrack (totalScope : ℚ) (hist : List ℚ) (todayDate : Int)
    (futureLen : Nat) : Option TrackForecast :=
  let v := avgVelocity hist 5
  if 0 < v then
    let last := hist.getLast?.getD 0
    let rem := max 0 (totalScope - last)
    some { points := projectTrack totalScope v last futureLen,
           completionDate := todayDate + ⌈rem / v⌉ }
  else none

/-- The forecast pair of the route response. -/
structure SprintForecast where
  dev : Option TrackForecast
  complete : Option TrackForecast
  deriving DecidableEq

/-- Embedding of the forecast block guarded by
`todayIdx >= 0 && todayIdx < burn.length - 1`: both tracks are forecast from
the histories up to and including today. -/
def buildForecast (totalScope : ℚ) (burn : List BurnItem) (todayIdx : Nat) :
    SprintForecast :=
  if todayIdx < burn.length - 1 then
    let histDev := (burn.take (todayIdx + 1)).map (fun b => b.devCompleted)
    let histComp := (burn.take (todayIdx + 1)).map (fun b => b.completeCompleted)
    let todayDate := (burn.getD todayIdx ⟨0, 0, 0, 0, 0, 0, 0, 0⟩).date
    { dev := forecastTrack totalScope histDev todayDate (burn.length - (todayIdx + 1)),
      complete := forecastTrack totalScope histComp todayDate (burn.length - (todayIdx + 1)) }
  else { dev := none, complete := none }

theorem buildForecast_pos (scope : ℚ) (burn : List BurnItem) (todayIdx : Nat)
    (h : todayIdx < burn.length - 1) :
    buildForecast scope burn todayIdx
      = { dev := forecastTrack scope ((burn.take (todayIdx + 1)).map (fun b => b.devCompleted))
            ((burn.getD todayIdx ⟨0, 0, 0, 0, 0, 0, 0, 0⟩).date) (burn.length - (todayIdx + 1)),
          complete := forecastTrack scope
            ((burn.take (todayIdx + 1)).map (fun b => b.completeCompleted))
            ((burn.getD todayIdx ⟨0, 0, 0, 0, 0, 0, 0, 0⟩).date)
            (burn.length - (todayIdx + 1)) } := by
  unfold buildForecast
  rw [if_pos h]

theorem buildForecast_neg (scope : ℚ) (burn : List BurnItem) (todayIdx : Nat)
    (h : ¬ todayIdx < burn.length - 1) :
    buildForecast scope burn todayIdx = { dev := none, complete := none } := by
  unfold buildForecast
  rw [if_neg h]

theorem forecastTrack_of_velocity_zero (scope : ℚ) (hist : List ℚ) (todayDate : Int)
    (n : Nat) (h : avgVelocity hist 5 = 0) :
    forecastTrack scope hist todayDate n = none := by
  unfold forecastTrack
  rw [if_neg (by rw [h]; exact lt_irrefl 0)]

theorem forecastTrack_some (scope : ℚ) (hist : List ℚ) (todayDate : Int) (n : Nat)
    (tf : TrackForecast) (h : forecastTrack scope hist todayDate n = some tf) :
    0 < avgVelocity hist 5 ∧
    tf.points = projectTrack scope (avgVelocity hist 5) (hist.getLast?.getD 0) n := by
  unfold forecastTrack at h
  by_cases hv : 0 < avgVelocity hist 5
  · rw [if_pos hv] at h
    injection h with h2
    exact ⟨hv, by rw [← h2]⟩
  · rw [if_neg hv] at h
    exact Option.noConfusion h

theorem projectTrack_points (scope v : ℚ) (n : Nat) :
    ∀ (cur : ℚ), ∀ fp ∈ projectTrack scope v cur n,
      fp.forecastCompleted ≤ scope ∧
      fp.forecastRemaining = max 0 (scope - fp.forecastCompleted) := by
  induction n with
  | zero =>
    intro cur fp h
    exact absurd h (List.not_mem_nil fp)
  | succ n ih =>
    intro cur fp h
    rw [projectTrack] at h
    rcases List.mem_cons.mp h with he | hm
    · subst he
      exact ⟨min_le_left scope _, rfl⟩
    · exact ih (min scope (cur + v)) fp hm

/-- C1. Sprint forecast: each track uses the trailing 5-point velocity of that
track's completed history up to today; a zero velocity yields no forecast and
no completion date for the track, and a positive velocity yields projected
completed values that never exceed the total scope (with remaining clamped at
zero). -/
theorem C1_forecast (scope : ℚ) (burn : List BurnItem) (todayIdx : Nat) :
    (avgVelocity ((burn.take (todayIdx + 1)).map (fun b => b.devCompleted)) 5 = 0 →
      (buildForecast scope burn todayIdx).dev = none) ∧
    (avgVelocity ((burn.take (todayIdx + 1)).map (fun b => b.completeCompleted)) 5 = 0 →
      (buildForecast scope burn todayIdx).complete = none) ∧
    (∀ tf, (buildForecast scope burn todayIdx).dev = some tf →
      0 < avgVelocity ((burn.take (todayIdx + 1)).map (fun b => b.devCompleted)) 5 ∧
      ∀ fp ∈ tf.points, fp.forecastCompleted ≤ scope ∧
        fp.forecastRemaining = max 0 (scope - fp.forecastCompleted)) ∧
    (∀ tf, (buildForecast scope burn todayIdx).complete = some tf →
      0 < avgVelocity ((burn.take (todayIdx + 1)).map (fun b => b.completeCompleted)) 5 ∧
      ∀ fp ∈ tf.points, fp.forecastCompleted ≤ scope ∧
        fp.forecastRemaining = max 0 (scope - fp.forecastCompleted)) := by
  by_cases hidx : todayIdx < burn.length - 1
  · rw [buildForecast_pos scope burn todayIdx hidx]
    refine ⟨?_, ?_, ?_, ?_⟩
    · intro h0
      exact forecastTrack_of_velocity_zero _ _ _ _ h0
    · intro h0
      exact forecastTrack_of_velocity_zero _ _ _ _ h0
    · intro tf htf
      obtain ⟨hv, hpts⟩ := forecastTrack_some _ _ _ _ tf htf
      refine ⟨hv, ?_⟩
      rw [hpts]
      exact projectTrack_points scope _ _ _
    · intro tf htf
      obtain ⟨hv, hpts⟩ := forecastTrack_some _ _ _ _ tf htf
      refine ⟨hv, ?_⟩
      rw [hpts]
      exact projectTrack_points scope _ _ _
  · rw [buildForecast_neg scope burn todayIdx hidx]
    exact ⟨fun _ => rfl, fun _ => rfl, fun tf htf => Option.noConfusion htf,
      fun tf htf => Option.noConfusion htf⟩

/-- Burn series whose dev track is flat up to today (velocity 0). -/
def wBurnA : List BurnItem :=
  [ ⟨0, 10, 0, 10, 0, 10, 0, 10⟩, ⟨1, 10, 2, 8, 0, 10, 2, 8⟩, ⟨2, 10, 2, 8, 0, 10, 2, 8⟩ ]

/-- Burn series whose dev track rises from 0 to 2 up to today (velocity 2). -/
def wBurnB : List BurnItem :=
  [ ⟨0, 10, 0, 10, 0, 10, 0, 10⟩, ⟨1, 10, 0, 10, 2, 8, 0, 10⟩, ⟨2, 10, 0, 10, 2, 8, 0, 10⟩ ]

/-- The dev-track forecast of `wBurnB` with scope 10 and today at index 1: one
future day at min(10, 2+2)=4 completed, 6 remaining, completion at day
1 + ceil((10-2)/2) = 5. -/
def wTFB : TrackForecast :=
  { points := [{ forecastCompleted := 4, forecastRemaining := 6 }], completionDate := 5 }

theorem buildForecastB_dev : (buildForecast 10 wBurnB 1).dev = some wTFB := by
  rw [buildForecast_pos 10 wBurnB 1 (by decide)]
  show forecastTrack 10 [0, 2] 1 1 = some wTFB
  have hv2 : avgVelocity [(0 : ℚ), 2] 5 = 2 := by
    norm_num [avgVelocity, List.range_succ, List.getD]
  unfold forecastTrack
  rw [hv2, if_pos (by norm_num)]
  have hlast : (([(0 : ℚ), 2]).getLast?).getD 0 = 2 := rfl
  rw [hlast]
  have hpts : projectTrack 10 2 2 1
      = [{ forecastCompleted := 4, forecastRemaining := 6 }] := by
    rw [projectTrack, projectTrack]
    norm_num
  have hdate : (1 : Int) + ⌈(max 0 (10 - 2) : ℚ) / 2⌉ = 5 := by
    norm_num
  show some (TrackForecast.mk (projectTrack 10 2 2 1)
      ((1 : Int) + ⌈(max 0 (10 - 2) : ℚ) / 2⌉)) = some wTFB
  rw [hpts, hdate]
  rfl

/-- C1 witness: on `wBurnA` the flat dev track has velocity 0 and yields no
dev forecast; on `wBurnB` the dev forecast exists and its projected values are
capped at the scope. -/
theorem C1_forecast_witness :
    (buildForecast 10 wBurnA 1).dev = none ∧
    (0 < avgVelocity ((wBurnB.take 2).map (fun b => b.devCompleted)) 5 ∧
      ∀ fp ∈ wTFB.points, fp.forecastCompleted ≤ 10 ∧
        fp.forecastRemaining = max 0 (10 - fp.forecastCompleted)) :=
  ⟨(C1_forecast 10 wBurnA 1).1
      (by norm_num [avgVelocity, List.range_succ, List.getD, wBurnA]),
    (C1_forecast 10 wBurnB 1).2.2.1 wTFB buildForecastB_dev⟩

/-! ## Daily Timeseries Aggregator (`aggregateDaily`, `src/lib/aggregate.ts`) -/

/-- One output bucket of `aggregateDaily`. -/
structure TimeseriesItem where
  date : Int
  prCount : Nat
  additions : Int
  deletions : Int
  tickets : Nat
  storyPoints : ℚ
  deriving DecidableEq

/-- The PR fields read by `aggregateDaily`: the calendar day of
`(p.createdAt ?? "").slice(0, 10)` when it parses to a seeded-key shape,
otherwise none, plus nullable line counts. -/
structure PRDay where
  createdDay : Option Int
  additions : Option Int
  deletions : Option Int
  deriving DecidableEq

/-- The issue fields read by `aggregateDaily`: resolution day and points. -/
structure IssueDay where
  resolutionDay : Option Int
  storyPoints : Option ℚ
  deriving DecidableEq

/-- Embedding of `eachDayOfInterval`: the consecutive calendar days from `lo`
to `hi` inclusive. -/
def seedDays (lo hi : Int) : List Int :=
  (List.range (hi - lo + 1).toNat).map (fun (i : Nat) => lo + (i : Int))

/-- A zeroed bucket for one day. -/
def zeroBucket (k : Int) : TimeseriesItem :=
  { date := k, prCount := 0, additions := 0, deletions := 0, tickets := 0, storyPoints := 0 }

/-- The map.get/set update applied to the bucket of day `k` for a PR. -/
def updPR (p : PRDay) (k : Int) (b : TimeseriesItem) : TimeseriesItem :=
  if b.date = k then
    { b with prCount := b.prCount + 1,
             additions := b.additions + p.additions.getD 0,
             deletions := b.deletions + p.deletions.getD 0 }
  else b

/-- PR loop body of `aggregateDaily`: the bucket keyed by the creation day is
bumped when present, PRs outside the seeded range are ignored. -/
def bumpPR (buckets : List TimeseriesItem) (p : PRDay) : List TimeseriesItem :=
  match p.createdDay with
  | none => buckets
  | some k =>
    if buckets.any (fun b => decide (b.date = k)) then buckets.map (updPR p k)
    else buckets

/-- The map.get/set update applied to the bucket of day `k` for an issue. -/
def updIssue (t : IssueDay) (k : Int) (b : TimeseriesItem) : TimeseriesItem :=
  if b.date = k then
    { b with tickets := b.tickets + 1,
             storyPoints := b.storyPoints + t.storyPoints.getD 0 }
  else b

/-- Issue loop body of `aggregateDaily`, keyed by resolution day. -/
def bumpIssue (buckets : List TimeseriesItem) (t : IssueDay) : List TimeseriesItem :=
  match t.resolutionDay with
  | none => buckets
  | some k =>
    if buckets.any (fun b => decide (b.date = k)) then buckets.map (updIssue t k)
    else buckets

instance : DecidableRel (fun a b : TimeseriesItem => a.date ≤ b.date) :=
  fun a b => Int.decLe a.date b.date

/-- Embedding of `aggregateDaily`: seed a zeroed bucket per day, fold the PRs,
fold the issues, and return the buckets sorted ascending by date. -/
def aggregateDaily (lo hi : Int) (prs : List PRDay) (issues : List IssueDay) :
    List TimeseriesItem :=
  let seed := (seedDays lo hi).map zeroBucket
  let afterPRs := prs.foldl bumpPR seed
  let afterIssues := issues.foldl bumpIssue afterPRs
  List.insertionSort (fun a b => a.date ≤ b.date) afterIssues

/-- The dates of a bucket list. -/
def datesOf (l : List TimeseriesItem) : List Int := l.map (fun b => b.date)

/-- The total PR count of a bucket list. -/
def sumPR (l : List TimeseriesItem) : Nat := (l.map (fun b => b.prCount)).sum

theorem list_map_id_of {α : Type} (l : List α) (g : α → α) (hg : ∀ b ∈ l, g b = b) :
    l.map g = l := by
  induction l with
  | nil => rfl
  | cons b r ih =>
    simp only [List.map_cons]
    rw [hg b (List.mem_cons_self b r), ih (fun c hc => hg c (List.mem_cons_of_mem b hc))]

theorem datesOf_map_upd (l : List TimeseriesItem) (g : TimeseriesItem → TimeseriesItem)
    (hg : ∀ b, (g b).date = b.date) : datesOf (l.map g) = datesOf l := by
  induction l with
  | nil => rfl
  | cons b r ih =>
    simp only [datesOf, List.map_cons] at *
    rw [hg b, ih]

theorem updPR_date (p : PRDay) (k : Int) (b : TimeseriesItem) : (updPR p k b).date = b.date := by
  unfold updPR
  by_cases hd : b.date = k <;> simp [hd]

theorem updIssue_date (t : IssueDay) (k : Int) (b : TimeseriesItem) :
    (updIssue t k b).date = b.date := by
  unfold updIssue
  by_cases hd : b.date = k <;> simp [hd]

theorem datesOf_bumpPR (buckets : List TimeseriesItem) (p : PRDay) :
    datesOf (bumpPR buckets p) = datesOf buckets := by
  unfold bumpPR
  cases p.createdDay with
  | none => rfl
  | some k =>
    show datesOf (if buckets.any (fun b => decide (b.date = k)) then
        buckets.map (updPR p k) else buckets) = datesOf buckets
    by_cases hany : buckets.any (fun b => decide (b.date = k)) = true
    · rw [if_pos hany]
      exact datesOf_map_upd buckets (updPR p k) (updPR_date p k)
    · rw [if_neg hany]

theorem datesOf_bumpIssue (buckets : List TimeseriesItem) (t : IssueDay) :
    datesOf (bumpIssue buckets t) = datesOf buckets := by
  unfold bumpIssue
  cases t.resolutionDay with
  | none => rfl
  | some k =>
    show datesOf (if buckets.any (fun b => decide (b.date = k)) then
        buckets.map (updIssue t k) else buckets) = datesOf buckets
    by_cases hany : buckets.any (fun b => decide (b.date = k)) = true
    · rw [if_pos hany]
      exact datesOf_map_upd buckets (updIssue t k) (updIssue_date t k)
    · rw [if_neg hany]

theorem any_date_iff (buckets : List TimeseriesItem) (k : Int) :
    buckets.any (fun b => decide (b.date = k)) = true ↔ k ∈ datesOf buckets := by
  rw [List.any_eq_true]
  unfold datesOf
  rw [List.mem_map]
  constructor
  · rintro ⟨b, hb, hd⟩
    exact ⟨b, hb, of_decide_eq_true hd⟩
  · rintro ⟨b, hb, hd⟩
    exact ⟨b, hb, decide_eq_true hd⟩

theorem sumPR_map_updPR (p : PRDay) (k : Int) (l : List TimeseriesItem)
    (hnd : (datesOf l).Nodup) (hk : k ∈ datesOf l) :
    sumPR (l.map (updPR p k)) = sumPR l + 1 := by
  induction l with
  | nil => exact absurd hk (List.not_mem_nil k)
  | cons b r ih =>
    have hnd2 : (datesOf r).Nodup := by
      simp only [datesOf, List.map_cons, List.nodup_cons] at hnd
      exact hnd.2
    by_cases hd : b.date = k
    · have hknr : k ∉ datesOf r := by
        simp only [datesOf, List.map_cons, List.nodup_cons] at hnd
        rw [← hd]
        exact hnd.1
      have hrest : r.map (updPR p k) = r := by
        apply list_map_id_of
        intro c hc
        unfold updPR
        rw [if_neg (fun hcd => hknr (List.mem_map.mpr ⟨c, hc, hcd⟩))]
      have hhead : (updPR p k b).prCount = b.prCount + 1 := by
        unfold updPR
        rw [if_pos hd]
      simp only [List.map_cons, sumPR, List.sum_cons] at *
      rw [hhead, hrest]
      omega
    · have hkr : k ∈ datesOf r := by
        simp only [datesOf, List.map_cons, List.mem_cons] at hk
        rcases hk with he | hm
        · exact absurd he.symm hd
        · exact hm
      have hhead : (updPR p k b).prCount = b.prCount := by
        unfold updPR
        rw [if_neg hd]
      have ihr := ih hnd2 hkr
      simp only [List.map_cons, sumPR, List.sum_cons] at *
      rw [hhead, ihr]
      omega

theorem sumPR_bumpPR (buckets : List TimeseriesItem) (p : PRDay)
    (hnd : (datesOf buckets).Nodup) :
    sumPR (bumpPR buckets p)
      = sumPR buckets + (match p.createdDay with
          | some k => if k ∈ datesOf buckets then 1 else 0
          | none => 0) := by
  unfold bumpPR
  cases p.createdDay with
  | none => rfl
  | some k =>
    show sumPR (if buckets.any (fun b => decide (b.date = k)) then
        buckets.map (updPR p k) else buckets)
      = sumPR buckets + (if k ∈ datesOf buckets then 1 else 0)
    by_cases hany : buckets.any (fun b => decide (b.date = k)) = true
    · have hk : k ∈ datesOf buckets := (any_date_iff buckets k).mp hany
      rw [if_pos hany, if_pos hk]
      exact sumPR_map_updPR p k buckets hnd hk
    · have hk : k ∉ datesOf buckets := fun h2 => hany ((any_date_iff buckets k).mpr h2)
      rw [if_neg hany, if_neg hk]
      omega

theorem sumPR_foldl_bumpPR (prs : List PRDay) (buckets : List TimeseriesItem)
    (hnd : (datesOf buckets).Nodup) :
    sumPR (prs.foldl bumpPR buckets)
      = sumPR buckets + (prs.filter (fun p => match p.createdDay with
          | some k => decide (k ∈ datesOf buckets)
          | none => false)).length := by
  induction prs generalizing buckets with
  | nil => simp
  | cons p rest ih =>
    simp only [List.foldl_cons]
    have hdates : datesOf (bumpPR buckets p) = datesOf buckets := datesOf_bumpPR buckets p
    have hnd2 : (datesOf (bumpPR buckets p)).Nodup := by rw [hdates]; exact hnd
    rw [ih (bumpPR buckets p) hnd2, hdates, sumPR_bumpPR buckets p hnd]
    cases hp : p.createdDay with
    | none =>
      simp only [List.filter_cons, hp]
      rfl
    | some k =>
      by_cases hk : k ∈ datesOf buckets
      · simp only [List.filter_cons, hp, decide_eq_true hk, if_pos hk, List.length_cons,
          eq_self_iff_true, if_true]
        omega
      · simp only [List.filter_cons, hp, decide_eq_false hk, if_neg hk]
        have h3 : ¬((false : Bool) = true) := Bool.false_ne_true
        rw [if_neg h3]
        omega

theorem sumPR_map_congr (l : List TimeseriesItem) (g : TimeseriesItem → TimeseriesItem)
    (hg : ∀ b, (g b).prCount = b.prCount) : sumPR (l.map g) = sumPR l := by
  induction l with
  | nil => rfl
  | cons b r ih =>
    simp only [List.map_cons, sumPR, List.sum_cons] at *
    rw [hg b, ih]

theorem sumPR_bumpIssue (buckets : List TimeseriesItem) (t : IssueDay) :
    sumPR (bumpIssue buckets t) = sumPR buckets := by
  unfold bumpIssue
  cases t.resolutionDay with
  | none => rfl
  | some k =>
    show sumPR (if buckets.any (fun b => decide (b.date = k)) then
        buckets.map (updIssue t k) else buckets) = sumPR buckets
    by_cases hany : buckets.any (fun b => decide (b.date = k)) = true
    · rw [if_pos hany]
      apply sumPR_map_congr
      intro b
      unfold updIssue
      by_cases hd : b.date = k <;> simp [hd]
    · rw [if_neg hany]

theorem sumPR_foldl_bumpIssue (issues : List IssueDay) (buckets : List TimeseriesItem) :
    sumPR (issues.foldl bumpIssue buckets) = sumPR buckets := by
  induction issues generalizing buckets with
  | nil => rfl
  | cons t rest ih =>
    simp only [List.foldl_cons]
    rw [ih (bumpIssue buckets t), sumPR_bumpIssue]

theorem sumPR_insertionSort (l : List TimeseriesItem) :
    sumPR (List.insertionSort (fun a b => a.date ≤ b.date) l) = sumPR l := by
  unfold sumPR
  exact List.Perm.sum_eq
    (List.Perm.map (fun b => b.prCount) (List.perm_insertionSort _ l))

theorem mem_seedDays (lo hi k : Int) : k ∈ seedDays lo hi ↔ lo ≤ k ∧ k ≤ hi := by
  unfold seedDays
  rw [List.mem_map]
  constructor
  · rintro ⟨i, hi2, rfl⟩
    rw [List.mem_range] at hi2
    omega
  · rintro ⟨h1, h2⟩
    refine ⟨(k - lo).toNat, ?_, ?_⟩
    · rw [List.mem_range]
      omega
    · omega

theorem seedDays_nodup (lo hi : Int) : (seedDays lo hi).Nodup := by
  unfold seedDays
  exact List.Nodup.map (fun a b hab => by omega) (List.nodup_range _)

theorem datesOf_seed (days : List Int) : datesOf (days.map zeroBucket) = days := by
  induction days with
  | nil => rfl
  | cons k r ih =>
    simp only [datesOf, List.map_cons] at *
    rw [ih]
    rfl

theorem sumPR_seed (days : List Int) : sumPR (days.map zeroBucket) = 0 := by
  induction days with
  | nil => rfl
  | cons k r ih =>
    simp only [sumPR, List.map_cons, List.sum_cons] at *
    rw [ih]
    rfl

/-- C7. Daily Timeseries Aggregator: the total PR count over all output
buckets equals the number of input PRs whose creation day lies inside the
inclusive seeded range; PRs created outside the range contribute to no
bucket. -/
theorem C7_daily_prcount (lo hi : Int) (prs : List PRDay) (issues : List IssueDay)
    (h : lo ≤ hi) :
    ((aggregateDaily lo hi prs issues).map (fun b => b.prCount)).sum
      = (prs.filter (fun p => match p.createdDay with
          | some k => decide (lo ≤ k) && decide (k ≤ hi)
          | none => false)).length := by
  show sumPR (aggregateDaily lo hi prs issues) = _
  unfold aggregateDaily
  rw [sumPR_insertionSort, sumPR_foldl_bumpIssue,
    sumPR_foldl_bumpPR prs ((seedDays lo hi).map zeroBucket)
      (by rw [datesOf_seed]; exact seedDays_nodup lo hi),
    sumPR_seed, Nat.zero_add]
  apply congrArg List.length
  apply List.filter_congr
  intro p _
  cases hp : p.createdDay with
  | none => rfl
  | some k =>
    show decide (k ∈ datesOf ((seedDays lo hi).map zeroBucket))
        = (decide (lo ≤ k) && decide (k ≤ hi))
    rw [datesOf_seed]
    rw [show (decide (lo ≤ k) && decide (k ≤ hi)) = decide (lo ≤ k ∧ k ≤ hi) from
      (Bool.decide_and _ _).symm]
    exact decide_eq_decide.mpr (mem_seedDays lo hi k)

/-- Witness PRs for the daily aggregation: one inside the range, one outside,
one with no creation day. -/
def wPRs : List PRDay :=
  [ { createdDay := some 3, additions := some 5, deletions := some 1 }
  , { createdDay := some 9, additions := some 2, deletions := some 2 }
  , { createdDay := none, additions := none, deletions := none } ]

/-- C7 witness: over the range [2, 4], exactly one of the three PRs is
counted. -/
theorem C7_daily_prcount_witness :
    ((aggregateDaily 2 4 wPRs []).map (fun b => b.prCount)).sum
      = (wPRs.filter (fun p => match p.createdDay with
          | some k => decide ((2 : Int) ≤ k) && decide (k ≤ 4)
          | none => false)).length :=
  C7_daily_prcount 2 4 wPRs [] (by decide)

end DevDash
